import Mathlib

namespace Lenaer

/-!
# Verification of the Lenaer Slack↔Linear sync bot (`src/index.ts`)

A shallow embedding of the pure/stateful core of the bot:

* the file-backed `ThreadMappingStore` (issue identifier → thread anchor),
* the identifier extraction/split logic of the chat→tracker sync,
* the provenance-marker loop-prevention check and thread resolution of the
  tracker→chat webhook handler,
* the title-tag extractor `extractTitleTags`, the grouping functions
  `groupRowsByState` / `groupRowsByTags`, and `sortGroupKeys`,
* the assignee-token parsing and resolution front end of
  `handleIssueListCommand`.

JavaScript strings are modelled as `List Char` (`Str`); `String` wrappers are
used where convenient (Lean's `String` is definitionally a `List Char`).
JavaScript values that may be `undefined`/`null` are modelled with `Option` or
the three-valued `JStr`; JS truthiness of strings (`""` is falsy) is modelled
explicitly.  External services (tracker API, chat search, chat posting) are
modelled as oracles, and the handlers return the list of external effects they
perform, in order.
-/

/-- Characters of a JS string. -/
abbrev Str := List Char

/-! ## Basic string helpers (models of JS string primitives) -/

/-- Model of the JS `\s` character class (ASCII whitespace). -/
def jsIsSpace (c : Char) : Bool :=
  c = ' ' ∨ c = '\t' ∨ c = '\n' ∨ c = '\r' ∨ c = '\x0b' ∨ c = '\x0c'

/-- `leadsWith pat s` : `pat` is an initial segment of `s`
(model of JS `String.startsWith`). -/
def leadsWith : Str → Str → Bool
  | [], _ => true
  | _ :: _, [] => false
  | p :: ps, c :: cs => p = c && leadsWith ps cs

/-- `containsSub pat s` : `pat` occurs as a contiguous substring of `s`
(model of JS `String.includes`). -/
def containsSub (pat : Str) : Str → Bool
  | [] => pat.isEmpty
  | c :: rest => leadsWith pat (c :: rest) || containsSub pat rest

/-- Model of JS `String.trim` (strip whitespace from both ends). -/
def jsTrim (s : Str) : Str :=
  ((s.dropWhile jsIsSpace).reverse.dropWhile jsIsSpace).reverse

/-- `s.toLowerCase()` (ASCII range). -/
def asciiLower (s : String) : String :=
  String.mk (s.data.map fun c =>
    if 65 ≤ c.toNat ∧ c.toNat ≤ 90 then Char.ofNat (c.toNat + 32) else c)

/-! ## ThreadMappingStore (src/index.ts lines 93–129)

The backing file `thread_map.json` holds a JSON object
`{identifier: {channelId, threadTs}}`; a JSON object is an insertion-ordered
association list.  `load` returns the parsed file, or the empty table when the
file is missing (or unreadable); `save` rewrites the whole file; `get`/`set`
are load-then-lookup and load-modify-save. -/

structure ThreadAnchor where
  channelId : String
  threadTs : String
deriving DecidableEq

/-- The parsed contents of `thread_map.json`: a JS object, i.e. an
insertion-ordered association list keyed by issue identifier. -/
abbrev ThreadMap := List (String × ThreadAnchor)

/-- The state of the backing file: `none` when the file is missing (or fails
to parse — both degrade to an empty table on load). -/
structure FsState where
  file : Option ThreadMap
deriving DecidableEq

/-- `ThreadMappingStore.load`. -/
def tmLoad (st : FsState) : ThreadMap := st.file.getD []

/-- `ThreadMappingStore.save`: rewrites the whole file. -/
def tmSave (m : ThreadMap) (_st : FsState) : FsState := ⟨some m⟩

/-- Lookup in a JS object (first — and only — binding of the key). -/
def assocGet : ThreadMap → String → Option ThreadAnchor
  | [], _ => none
  | (k', a) :: rest, k => if k' = k then some a else assocGet rest k

/-- `data[key] = value` on a JS object: replace the existing binding in place
or append a new one. -/
def assocSet : ThreadMap → String → ThreadAnchor → ThreadMap
  | [], k, a => [(k, a)]
  | (k', a') :: rest, k, a =>
      if k' = k then (k, a) :: rest else (k', a') :: assocSet rest k a

/-- `ThreadMappingStore.get`. -/
def tmGet (ident : String) (st : FsState) : Option ThreadAnchor :=
  assocGet (tmLoad st) ident

/-- `ThreadMappingStore.set`. -/
def tmSet (ident channelId threadTs : String) (st : FsState) : FsState :=
  tmSave (assocSet (tmLoad st) ident ⟨channelId, threadTs⟩) st

/-- A store whose backing file was never written. -/
def emptyStore : FsState := ⟨none⟩

/-! ## Identifier codec (src/index.ts lines 160–166)

The chat→tracker sync extracts an identifier matching `[A-Z0-9]+-\d+`, splits
it at its last `-` (`lastIndexOf('-')` + two `substring`s), and parses the
suffix with `parseInt(_, 10)`.  The tracker→chat direction re-joins
`teamKey + "-" + number` (template interpolation of the parsed number). -/

/-- `[A-Z0-9]` (the team-key character class). -/
def isTeamKeyChar (c : Char) : Bool :=
  (65 ≤ c.toNat ∧ c.toNat ≤ 90) ∨ (48 ≤ c.toNat ∧ c.toNat ≤ 57)

/-- `\d` (ASCII digit). -/
def isDigitChar (c : Char) : Bool := 48 ≤ c.toNat ∧ c.toNat ≤ 57

/-- Split a string at its *last* `'-'` into (everything before, everything
after); `none` if no dash occurs.  Model of
`lastIndexOf('-')` + `substring(0, i)` / `substring(i + 1)`. -/
def splitLastDash : Str → Option (Str × Str)
  | [] => none
  | c :: rest =>
    match splitLastDash rest with
    | some (pre, suf) => some (c :: pre, suf)
    | none => if c = '-' then some ([], rest) else none

/-- Full match of the identifier pattern `[A-Z0-9]+-[0-9]+`.  (A string
matching this has exactly one dash, so the last dash is that dash.) -/
def identMatches (s : Str) : Bool :=
  match splitLastDash s with
  | some (pre, suf) =>
      !pre.isEmpty && pre.all isTeamKeyChar && !suf.isEmpty && suf.all isDigitChar
  | none => false

/-- Numeric value of a digit character. -/
def charVal (c : Char) : Nat := c.toNat - 48

/-- Character for a digit value. -/
def digitChar (d : Nat) : Char := Char.ofNat (48 + d)

/-- `parseInt(s, 10)` on an all-digit string: big-endian fold.  JS `parseInt`
produces an IEEE-754 double, which equals this exact integer value only while
the value stays within the double-exact range (at most `2^53`); the
round-trip theorem below is restricted to that range, where the model and JS
coincide. -/
def digitsVal (s : Str) : Nat := s.foldl (fun n c => 10 * n + charVal c) 0

/-- Decimal rendering of a number (JS template interpolation `${n}`).  JS
renders the double's value, exactly and in plain decimal notation for
integers up to `2^53` (exponential notation only starts at `1e21`); the
round-trip statement below is restricted to that range, where the model and
JS coincide. -/
def natToDec (n : Nat) : Str :=
  if n = 0 then ['0'] else ((Nat.digits 10 n).map digitChar).reverse

/-- The split at lines 164–166: `(teamKey, issueNumber)`.  (The `none` branch
is unreachable for strings produced by the identifier regex, which always
contain a dash.) -/
def splitIdent (s : Str) : Str × Nat :=
  match splitLastDash s with
  | some (pre, suf) => (pre, digitsVal suf)
  | none => (s, 0)

/-- Re-joining `teamKey + "-" + number`. -/
def rejoinIdent (p : Str × Nat) : Str := p.1 ++ '-' :: natToDec p.2

/-- The numeric suffix carries no leading zero (vacuously true without a
dash). -/
def noLeadingZero (s : Str) : Bool :=
  match splitLastDash s with
  | some (_, suf) => suf == ['0'] || !(suf.head? == some '0')
  | none => true

/-! ## Title tag extraction (src/index.ts lines 564–576)

`extractTitleTags` matches the prefix regex `/^\s*(\[[^\]]+\]\s*)+/` (a
contiguous run of non-empty bracketed groups, with optional whitespace before
and between them, anchored at the start), then collects every `\[([^\]]+)\]`
inner text of that prefix, trims it, and drops the ones that trim to empty.
The greedy prefix match is embedded as a recursive parser: `parseGroup` parses
one `\[[^\]]+\]` group, `parseGroups` iterates it (with `\s*` between groups)
as long as it succeeds.  The iteration is structurally bounded by a fuel
argument equal to the string length (each group consumes at least two
characters), which `parseGroupsF_congr` shows is irrelevant. -/

/-- `[^\]]`: any character other than the closing bracket. -/
def notRB (x : Char) : Bool := x ≠ ']'

/-- Parse one `\[[^\]]+\]` group at the head of the string; returns the inner
text and the remainder after the closing bracket. -/
def parseGroup : Str → Option (Str × Str)
  | [] => none
  | c :: rest =>
    if c = '[' then
      if (rest.dropWhile notRB).head? = some ']' then
        if (rest.takeWhile notRB).isEmpty then none
        else some (rest.takeWhile notRB, (rest.dropWhile notRB).tail)
      else none
    else none

/-- Iterate `parseGroup`, skipping `\s*` after each group. -/
def parseGroupsF : Nat → Str → List Str
  | 0, _ => []
  | fuel + 1, s =>
    match parseGroup s with
    | some (inner, rest) => inner :: parseGroupsF fuel (rest.dropWhile jsIsSpace)
    | none => []

/-- The inner texts of the maximal leading run of bracketed groups. -/
def parseGroups (s : Str) : List Str := parseGroupsF s.length s

/-- `extractTitleTags` on character lists: skip leading `\s*`, take the inner
texts of the leading bracket run, trim each, drop the empty ones. -/
def extractTagsL (title : Str) : List Str :=
  ((parseGroups (title.dropWhile jsIsSpace)).map jsTrim).filter (fun t => !t.isEmpty)

/-- `extractTitleTags` (src/index.ts line 565). -/
def extractTitleTags (title : String) : List String :=
  (extractTagsL title.data).map String.mk

/-! ## Issue listing: rows and grouping (src/index.ts lines 636–694)

A row is the `IssueRow` record built by `buildIssueRows`; the groupings
`groupRowsByState` / `groupRowsByTags` build a JS object
`Record<string, IssueRow[]>`, modelled as an insertion-ordered association
list.  `issueId` stands for the identity of the underlying issue object. -/

structure IssueRow where
  issueId : Nat
  assigneeName : String
  tags : List String
  stateName : String
deriving DecidableEq

/-- A JS object `Record<string, α[]>`: insertion-ordered association list. -/
abbrev Grouped (α : Type) := List (String × List α)

/-- `if (!grouped[key]) grouped[key] = []; grouped[key].push(r)`: append to
the existing group, or append a new key at the end (JS key insertion
order). -/
def addToGroup {α : Type} : Grouped α → String → α → Grouped α
  | [], k, v => [(k, [v])]
  | (k', vs) :: rest, k, v =>
      if k' = k then (k', vs ++ [v]) :: rest else (k', vs) :: addToGroup rest k v

/-- `grouped[key]` read with `?.length || 0` semantics: a missing key reads as
the empty group. -/
def lookupGroup {α : Type} : Grouped α → String → List α
  | [], _ => []
  | (k', vs) :: rest, k => if k' = k then vs else lookupGroup rest k

/-- `Object.keys(grouped)` (insertion order). -/
def groupKeys {α : Type} (g : Grouped α) : List String := g.map Prod.fst

/-- JS truthiness of an optional string (`undefined` and `""` are falsy). -/
def jsTruthy : Option String → Bool
  | none => false
  | some s => s ≠ ""

/-- `groupRowsByState` (lines 653–661). -/
def groupRowsByState (rows : List IssueRow) : Grouped IssueRow :=
  rows.foldl (fun g r => addToGroup g r.stateName r) []

/-- The body of the `for (const r of rows)` loop of `groupRowsByTags`. -/
def tagStep (requestedTag : Option String) (g : Grouped IssueRow)
    (r : IssueRow) : Grouped IssueRow :=
  if r.tags.isEmpty then
    if jsTruthy requestedTag = false ∨ requestedTag = some "NoTag" then
      addToGroup g "NoTag" r
    else g
  else
    r.tags.foldl (fun g t =>
      if jsTruthy requestedTag = true ∧ requestedTag ≠ some t then g
      else addToGroup g t r) g

/-- `groupRowsByTags` (lines 663–686). -/
def groupRowsByTags (rows : List IssueRow) (requestedTag : Option String) :
    Grouped IssueRow :=
  rows.foldl (tagStep requestedTag) []

/-- The copies of row `r` that `groupRowsByTags` inserts into group `k`
(one per occurrence of `k` in `r.tags` that passes the filter; for a tagless
row, one copy in `"NoTag"` when the filter allows it). -/
def rowCopies (requestedTag : Option String) (k : String) (r : IssueRow) :
    List IssueRow :=
  if r.tags.isEmpty then
    if k = "NoTag" ∧ (jsTruthy requestedTag = false ∨ requestedTag = some "NoTag")
    then [r] else []
  else
    (r.tags.filter (fun t =>
      decide (t = k ∧ ¬(jsTruthy requestedTag = true ∧ requestedTag ≠ some t)))).map
      (fun _ => r)

/-- Whether `groupRowsByTags` places row `r` in group `k` (decidable form,
meaningful when `r.tags` is duplicate-free). -/
def rowInGroupB (requestedTag : Option String) (k : String) (r : IssueRow) :
    Bool :=
  if r.tags.isEmpty then
    decide (k = "NoTag" ∧
      (jsTruthy requestedTag = false ∨ requestedTag = some "NoTag"))
  else
    decide (k ∈ r.tags ∧ ¬(jsTruthy requestedTag = true ∧ requestedTag ≠ some k))

/-! ## sortGroupKeys (src/index.ts lines 688–694)

`Object.keys(grouped).sort(cmp)` with
`cmp(a,b) = grouped[b].length - grouped[a].length`, ties broken by
`a.localeCompare(b)`.  `localeCompare` is locale-aware collation supplied by
the runtime's ICU data — it is *not* determined by this repository's source
(it varies with the host's locale and ICU build) — so the model takes the
collation as an oracle parameter `lc : String → String → Bool`
(`lc a b ↔ a.localeCompare(b) ≤ 0`).  The comparator is antisymmetric on the
(duplicate-free) key list, so any correct sort yields the unique list sorted
by it; the model realises it with insertion sort. -/

/-- Plain lexicographic (code-unit) string comparison.  This is *not*
`localeCompare`; it expresses the spec's "ascending lexicographic" reading
and is the primary-strength building block of `localeLeEn` below. -/
def strLe : Str → Str → Bool
  | [], _ => true
  | _ :: _, [] => false
  | c :: cs, d :: ds => if c = d then strLe cs ds else decide (c < d)

/-- A model of default-locale (`en`) `localeCompare` at primary strength:
letters compare case-insensitively (`'bug'.localeCompare('QA') < 0` even
though `'Q' < 'b'` in code units).  Faithful for keys whose lowercased forms
differ, which is all the counterexample needs. -/
def localeLeEn (a b : String) : Bool :=
  strLe (asciiLower a).data (asciiLower b).data

/-- `grouped[k]?.length || 0`. -/
def keyLen {α : Type} (g : Grouped α) (k : String) : Nat :=
  (lookupGroup g k).length

/-- The sort comparator as an ordering relation over the collation oracle
`lc`: `a` may precede `b` iff `b`'s group is strictly smaller, or the groups
are equal-sized and `lc` orders `a` no later than `b`. -/
def sortKeyRel (lc : String → String → Bool) {α : Type} (g : Grouped α)
    (a b : String) : Prop :=
  keyLen g b < keyLen g a ∨ (keyLen g a = keyLen g b ∧ lc a b = true)

instance sortKeyRelDec (lc : String → String → Bool) {α : Type}
    (g : Grouped α) : DecidableRel (sortKeyRel lc g) :=
  fun a b => inferInstanceAs
    (Decidable (keyLen g b < keyLen g a ∨ (keyLen g a = keyLen g b ∧ lc a b = true)))

/-- `sortGroupKeys` (lines 688–694), parametrised by the runtime's
`localeCompare` collation `lc`. -/
def sortGroupKeys (lc : String → String → Bool) {α : Type} (g : Grouped α) :
    List String :=
  List.insertionSort (sortKeyRel lc g) (groupKeys g)

/-- Concrete rows for the C10 witness. -/
def rowsW : List IssueRow :=
  [⟨1, "a", ["X"], "Doing"⟩, ⟨2, "b", [], "Todo"⟩, ⟨3, "c", ["X"], "Todo"⟩]

/-- A row with a duplicated tag (reachable: `extractTitleTags "[X] [X] fix"`
yields `["X", "X"]`), together with an ordinary row. -/
def rowsD : List IssueRow :=
  [⟨9, "d", ["X", "X"], "Todo"⟩, ⟨10, "e", ["X"], "Doing"⟩]

/-! ## Linear → Slack webhook (src/index.ts lines 204–298)

The handler destructures `{action, type, data}` from the JSON body, filters on
`type`, identifies the issue and message text (lines 215–250), then resolves
the Slack thread via the mapping store with a search fallback and posts
(lines 254–293).  SDK lookups that throw (issue/user not found) are modelled
by the oracle returning `none`; the surrounding `try/catch` then ends the
delivery with the effects performed so far.  The handler returns the final
store state and the ordered list of external effects. -/

/-- A JS value that is a string, `null`, or `undefined`. -/
inductive JStr where
  | undef
  | null
  | str (s : String)
deriving DecidableEq

/-- JS truthiness (`undefined`, `null` and `""` are falsy). -/
def JStr.truthy : JStr → Bool
  | .str s => s ≠ ""
  | _ => false

/-- JS template interpolation of a possibly-missing value. -/
def JStr.interp : JStr → String
  | .undef => "undefined"
  | .null => "null"
  | .str s => s

structure UpdatedFrom where
  stateId : JStr
  assigneeId : JStr
deriving DecidableEq

structure WebhookData where
  id : String
  issueId : String
  userId : String
  body : JStr
  stateId : JStr
  assigneeId : JStr
deriving DecidableEq

structure WebhookBody where
  action : String
  type : String
  data : WebhookData
  updatedFrom : Option UpdatedFrom
deriving DecidableEq

/-- `body.updatedFrom?.f` (optional chaining: `undefined` when `updatedFrom`
is absent). -/
def ufField (b : WebhookBody) (f : UpdatedFrom → JStr) : JStr :=
  match b.updatedFrom with
  | none => .undef
  | some u => f u

/-- The issue record the tracker SDK returns: `issue.identifier`,
`(await issue.state)?.name`, and `await issue.assignee` (present ⇒ name). -/
structure IssueInfo where
  identifier : String
  stateName : Option String
  assigneeName : Option String
deriving DecidableEq

structure LinearUser where
  name : String
deriving DecidableEq

/-- The top match of `search.messages(query, sort: timestamp desc, count: 1)`:
`match.channel?.id` and `match.ts`, each possibly absent. -/
structure SearchMatch where
  channelId : Option String
  ts : Option String
deriving DecidableEq

/-- External-service oracles; `none` from an issue/user lookup models the SDK
call throwing (caught by the handler), `none` from `search` models an empty
result. -/
structure Env where
  issueById : String → Option IssueInfo
  userById : String → Option LinearUser
  search : String → Option SearchMatch

/-- External effects of a webhook delivery, in order. -/
inductive Effect where
  | fetchIssue (id : String)
  | fetchUser (id : String)
  | mapGet (ident : String)
  | searchCall (ident : String)
  | mapSet (ident channel ts : String)
  | chatPost (channel ts text : String)
deriving DecidableEq

/-- JS truthiness for a string-or-undefined value. -/
def optTruthy : Option String → Bool
  | none => false
  | some s => s ≠ ""

/-- The provenance marker appended by the chat→tracker sync (line 189) and
checked by the loop-prevention guard (line 241). -/
def provenanceMarker : Str := "(from Slack by".data

/-- `commentBody.includes('(from Slack by')`. -/
def containsMarker (s : String) : Bool := containsSub provenanceMarker s.data

/-- Outcome of the event-identification phase: processing already ended
(`return` or a thrown lookup), or an identifier and message text were
produced (both possibly `""`, filtered at line 250). -/
inductive Phase1 where
  | stop (effs : List Effect)
  | proceed (ident msg : String) (effs : List Effect)

/-- Lines 215–250: identify the issue identifier and message text.  The
`Comment`/`create` branch checks the provenance marker *before* any lookup
(line 241). -/
def identifyEvent (env : Env) (b : WebhookBody) : Phase1 :=
  if b.type = "Issue" ∧ b.action = "update" then
    if (b.data.stateId).truthy = true ∧ (ufField b (·.stateId)).truthy = true ∧
        b.data.stateId ≠ ufField b (·.stateId) then
      match env.issueById b.data.id with
      | none => .stop [.fetchIssue b.data.id]
      | some iss =>
          .proceed iss.identifier
            ("🛠️ *상태 변경*: " ++ (match iss.stateName with
              | some n => n
              | none => "undefined"))
            [.fetchIssue b.data.id]
    else if (b.data.assigneeId).truthy = true ∧
        ufField b (·.assigneeId) ≠ .undef then
      match env.issueById b.data.id with
      | none => .stop [.fetchIssue b.data.id]
      | some iss =>
          .proceed iss.identifier
            ("👤 *담당자 변경*: " ++ (match iss.assigneeName with
              | some n => n
              | none => "Unassigned"))
            [.fetchIssue b.data.id]
    else .proceed "" "" []
  else if b.type = "Comment" ∧ b.action = "create" then
    if (match b.data.body with
        | .str s => containsMarker s
        | _ => false) = true then .stop []
    else
      match env.issueById b.data.issueId with
      | none => .stop [.fetchIssue b.data.issueId]
      | some iss =>
        match env.userById b.data.userId with
        | none => .stop [.fetchIssue b.data.issueId, .fetchUser b.data.userId]
        | some u =>
            .proceed iss.identifier
              ("💬 *새로운 댓글 (" ++ u.name ++ ")*:\n" ++ (b.data.body).interp)
              [.fetchIssue b.data.issueId, .fetchUser b.data.userId]
  else .proceed "" "" []

/-- Lines 254–293: thread resolution and posting.  Mapping-store lookup
first; on a hit no search happens; on a miss the search oracle is consulted
and a usable match is written back into the store *before* the post. -/
def resolveAndPost (env : Env) (ident msg : String) (st : FsState) :
    FsState × List Effect :=
  match tmGet ident st with
  | some m =>
      if m.channelId ≠ "" ∧ m.threadTs ≠ "" then
        (st, [.mapGet ident, .chatPost m.channelId m.threadTs msg])
      else (st, [.mapGet ident])
  | none =>
      match env.search ident with
      | none => (st, [.mapGet ident, .searchCall ident])
      | some sm =>
          if optTruthy sm.channelId = true ∧ optTruthy sm.ts = true then
            (tmSet ident (sm.channelId.getD "") (sm.ts.getD "") st,
             [.mapGet ident, .searchCall ident,
              .mapSet ident (sm.channelId.getD "") (sm.ts.getD ""),
              .chatPost (sm.channelId.getD "") (sm.ts.getD "") msg])
          else (st, [.mapGet ident, .searchCall ident])

/-- The `POST /linear/webhook` handler (lines 204–298), after the immediate
200 acknowledgment. -/
def handleWebhook (env : Env) (b : WebhookBody) (st : FsState) :
    FsState × List Effect :=
  if b.type ≠ "Issue" ∧ b.type ≠ "Comment" then (st, [])
  else
    match identifyEvent env b with
    | .stop effs => (st, effs)
    | .proceed ident msg effs =>
        if ident ≠ "" ∧ msg ≠ "" then
          let r := resolveAndPost env ident msg st
          (r.1, effs ++ r.2)
        else (st, effs)

/-- Oracles that fail every lookup and find nothing. -/
def envW : Env := ⟨fun _ => none, fun _ => none, fun _ => none⟩

/-- A concrete marker-bearing `Comment`/`create` delivery. -/
def bodyW : WebhookBody :=
  ⟨"create", "Comment",
    ⟨"i1", "iss1", "u1", .str "done _(from Slack by Sam)_", .undef, .undef⟩,
    none⟩

/-- A store mapping `"ENG-1"` to the anchor `("C1", "T1")`. -/
def stMapped : FsState := ⟨some [("ENG-1", ⟨"C1", "T1"⟩)]⟩

/-- Oracles that resolve the comment's issue and author. -/
def envC1 : Env :=
  ⟨fun _ => some ⟨"ENG-1", none, none⟩, fun _ => some ⟨"Sam"⟩, fun _ => none⟩

/-- A `Comment`/`create` delivery whose body carries an upper-cased variant
of the provenance marker. -/
def bodyC1 : WebhookBody :=
  ⟨"create", "Comment",
    ⟨"i1", "iss1", "u1", .str "ok (FROM SLACK BY Sam)", .undef, .undef⟩,
    none⟩

/-- Oracles whose search finds the anchor `("C2", "T2")`. -/
def envSearch : Env :=
  ⟨fun _ => none, fun _ => none, fun _ => some ⟨some "C2", some "T2"⟩⟩

/-! ## Issue-list command front end (src/index.ts lines 776–831)

`handleIssueListCommand` trims the command text, splits it on whitespace,
scans the tokens for the mode switch (`태그`/`tag`, with an optional
following non-mention tag filter) and for assignee tokens (starting with `@`
or `<@`, comma-splittable), resolves each assignee token to a Slack user id
(deduplicating), and — when at least one assignee token was supplied but none
resolved — responds with an ephemeral error and returns instead of falling
back to the requester.  The model covers exactly this front end, up to the
decision between the error response and proceeding with a list of assignee
ids. -/

inductive ListMode where
  | state
  | tag
deriving DecidableEq

/-- `t.split(',')`. -/
def splitCommaAux : Str → Str → List Str
  | [], cur => [cur.reverse]
  | c :: rest, cur =>
      if c = ',' then cur.reverse :: splitCommaAux rest []
      else splitCommaAux rest (c :: cur)

def jsSplitComma (s : String) : List String :=
  (splitCommaAux s.data []).map String.mk

/-- `raw.split(/\s+/)` on an already-trimmed string: maximal whitespace runs
separate the words (no empty words arise on trimmed input). -/
def wordsByAux (p : Char → Bool) : Str → Str → List Str
  | [], cur => if cur.isEmpty then [] else [cur.reverse]
  | c :: rest, cur =>
      if p c then
        if cur.isEmpty then wordsByAux p rest []
        else cur.reverse :: wordsByAux p rest []
      else wordsByAux p rest (c :: cur)

/-- `raw ? raw.split(/\s+/) : []`. -/
def wsTokens (raw : String) : List String :=
  if raw = "" then [] else (wordsByAux jsIsSpace raw.data []).map String.mk

def jsStartsWith (pre s : String) : Bool := leadsWith pre.data s.data

def jsTrimS (s : String) : String := String.mk (jsTrim s.data)

/-- The token-scanning loop (lines 789–808): accumulates the mode, the
requested tag (the token after a mode switch, when present, truthy and not a
mention), and the assignee tokens (comma-split parts that start with `@` or
`<@`). -/
def scanTokens : ListMode → Option String → List String → List String →
    ListMode × Option String × List String
  | mode, rtag, atoks, [] => (mode, rtag, atoks)
  | mode, rtag, atoks, t :: rest =>
      if t = "태그" ∨ asciiLower t = "tag" then
        scanTokens .tag
          (match rest.head? with
            | some n =>
                if n ≠ "" ∧ jsStartsWith "@" n = false ∧
                    jsStartsWith "<@" n = false
                then some n else rtag
            | none => rtag)
          atoks rest
      else if jsStartsWith "@" t = true ∨ jsStartsWith "<@" t = true then
        scanTokens mode rtag
          (atoks ++ (((jsSplitComma t).map jsTrimS).filter
              (fun p => p ≠ "")).filter
            (fun p => jsStartsWith "@" p = true ∨ jsStartsWith "<@" p = true))
          rest
      else scanTokens mode rtag atoks rest

/-- Lines 780–787: `(command.text || '').trim()`, tokenization, and initial
mode (`modeOverride || 'state'`), followed by the scanning loop. -/
def parseListTokens (text : String) (modeOverride : Option ListMode) :
    ListMode × Option String × List String :=
  scanTokens (modeOverride.getD .state) none [] (wsTokens (jsTrimS text))

/-- Lines 813–816: resolve each assignee token, keeping truthy ids and
deduplicating. -/
def collectIds (resolve : String → Option String) :
    List String → List String → List String
  | acc, [] => acc
  | acc, tok :: rest =>
      collectIds resolve
        (match resolve tok with
          | some id =>
              if id ≠ "" ∧ acc.contains id = false then acc ++ [id] else acc
          | none => acc)
        rest

/-- The decision the command front end reaches: respond with the
"couldn't find those users" error, or proceed to listing for the given
assignee ids. -/
inductive ListCmdDecision where
  | respondError (tokens : List String)
  | proceed (assigneeIds : List String) (mode : ListMode) (rtag : Option String)
deriving DecidableEq

/-- Lines 780–831 up to the listing itself: parse, resolve, error out when
explicit assignee tokens all failed to resolve, else default to the requester
only when *no* assignee token was supplied. -/
def issueListDecision (resolve : String → Option String)
    (text requesterId : String) (modeOverride : Option ListMode) :
    ListCmdDecision :=
  let parsed := parseListTokens text modeOverride
  let atoks := parsed.2.2
  let ids := if atoks.isEmpty then [] else collectIds resolve [] atoks
  if atoks.isEmpty = false ∧ ids.isEmpty = true then .respondError atoks
  else .proceed (if ids.isEmpty then [requesterId] else ids) parsed.1 parsed.2.1

/-! ### Store lemmas -/

theorem assocGet_assocSet_same (m : ThreadMap) (k : String) (a : ThreadAnchor) :
    assocGet (assocSet m k a) k = some a := by
  induction m with
  | nil => simp [assocSet, assocGet]
  | cons p rest ih =>
    obtain ⟨k', a'⟩ := p
    by_cases h : k' = k
    · simp [assocSet, assocGet, h]
    · simp [assocSet, assocGet, h, ih]

theorem assocGet_assocSet_other (m : ThreadMap) (k j : String) (a : ThreadAnchor)
    (h : j ≠ k) : assocGet (assocSet m k a) j = assocGet m j := by
  have hkj : ¬ k = j := fun hh => h hh.symm
  induction m with
  | nil => simp [assocSet, assocGet, hkj]
  | cons p rest ih =>
    obtain ⟨k', a'⟩ := p
    by_cases hk : k' = k
    · subst hk
      simp [assocSet, assocGet, hkj]
    · simp [assocSet, assocGet, hk, ih]

theorem tmGet_tmSet_same (st : FsState) (i c t : String) :
    tmGet i (tmSet i c t st) = some ⟨c, t⟩ := by
  simp [tmGet, tmSet, tmSave, tmLoad, assocGet_assocSet_same]

theorem tmGet_tmSet_other (st : FsState) (i j c t : String) (h : j ≠ i) :
    tmGet j (tmSet i c t st) = tmGet j st := by
  simp [tmGet, tmSet, tmSave, tmLoad, assocGet_assocSet_other _ _ _ _ h]

/-- **C3.** `ThreadMappingStore.get` on an identifier never written returns
none; after one `set(i, a)` it returns exactly `a`; a second `set(i, b)` fully
replaces the first binding (no merging of the two anchors). -/
theorem C3_mapping_store_get_set (i : String) (a b : ThreadAnchor) :
    tmGet i emptyStore = none ∧
    tmGet i (tmSet i a.channelId a.threadTs emptyStore) = some a ∧
    tmGet i (tmSet i b.channelId b.threadTs
      (tmSet i a.channelId a.threadTs emptyStore)) = some b ∧
    (∀ st : FsState, tmGet i (tmSet i b.channelId b.threadTs st) = some b) := by
  refine ⟨rfl, tmGet_tmSet_same _ _ _ _, tmGet_tmSet_same _ _ _ _,
    fun st => tmGet_tmSet_same _ _ _ _⟩

/-- **C9.** `ThreadMappingStore.set(i, channel, ts)` leaves the stored mapping
for every other identifier `j ≠ i` unchanged, even though the whole table is
read in full and rewritten in full by every `set`. -/
theorem C9_set_frame (st : FsState) (i j c t : String) (h : j ≠ i) :
    tmGet j (tmSet i c t st) = tmGet j st :=
  tmGet_tmSet_other st i j c t h

/-- Witness for C9 at concrete inputs. -/
theorem C9_set_frame_witness :
    ("B-2" : String) ≠ "A-1" ∧
      tmGet "B-2" (tmSet "A-1" "C9" "T9" ⟨some [("B-2", ⟨"C0", "T0"⟩)]⟩) =
        tmGet "B-2" ⟨some [("B-2", ⟨"C0", "T0"⟩)]⟩ :=
  ⟨by decide, C9_set_frame ⟨some [("B-2", ⟨"C0", "T0"⟩)]⟩ "A-1" "B-2" "C9" "T9"
    (by decide)⟩

/-! ### Identifier lemmas -/

theorem splitLastDash_eq {s pre suf : Str}
    (h : splitLastDash s = some (pre, suf)) : s = pre ++ '-' :: suf := by
  induction s generalizing pre suf with
  | nil => simp [splitLastDash] at h
  | cons c rest ih =>
    rw [splitLastDash] at h
    cases hr : splitLastDash rest with
    | some p =>
      obtain ⟨p1, p2⟩ := p
      rw [hr] at h
      injection h with h
      cases h
      rw [ih hr]
      rfl
    | none =>
      rw [hr] at h
      by_cases hc : c = '-'
      · rw [if_pos hc] at h
        injection h with h
        cases h
        rw [hc]
        rfl
      · rw [if_neg hc] at h
        exact absurd h (by simp)

theorem digitsVal_foldl (s : Str) (a : Nat) :
    s.foldl (fun n c => 10 * n + charVal c) a
      = a * 10 ^ s.length + Nat.ofDigits 10 ((s.map charVal).reverse) := by
  induction s generalizing a with
  | nil => simp [Nat.ofDigits_nil]
  | cons c t ih =>
    simp only [List.foldl_cons, List.map_cons, List.reverse_cons, List.length_cons]
    rw [ih, Nat.ofDigits_append]
    simp only [Nat.ofDigits_cons, Nat.ofDigits_nil, List.length_reverse,
      List.length_map]
    ring

theorem digitsVal_eq (s : Str) :
    digitsVal s = Nat.ofDigits 10 ((s.map charVal).reverse) := by
  simpa using digitsVal_foldl s 0

theorem charVal_lt {c : Char} (h : isDigitChar c = true) : charVal c < 10 := by
  simp [isDigitChar] at h
  simp [charVal]
  omega

theorem digitChar_charVal {c : Char} (h : isDigitChar c = true) :
    digitChar (charVal c) = c := by
  simp [isDigitChar] at h
  have h48 : 48 + (c.toNat - 48) = c.toNat := by omega
  rw [digitChar, charVal, h48, Char.ofNat_toNat]

theorem charVal_ne_zero {c : Char} (h : isDigitChar c = true) (hc : c ≠ '0') :
    charVal c ≠ 0 := by
  intro h0
  apply hc
  have hdc := digitChar_charVal h
  rw [h0] at hdc
  rw [← hdc]
  decide

theorem natToDec_digitsVal {s : Str} (hne : s ≠ []) (hd : s.all isDigitChar = true)
    (hz : s = ['0'] ∨ s.head? ≠ some '0') :
    natToDec (digitsVal s) = s := by
  rcases hz with h0 | hhead
  · subst h0
    decide
  · obtain ⟨c, t, rfl⟩ := List.exists_cons_of_ne_nil hne
    have hmem : ∀ x ∈ c :: t, isDigitChar x = true := by
      simpa [List.all_eq_true] using hd
    have hc0 : c ≠ '0' := by simpa using hhead
    set ds := ((c :: t).map charVal).reverse with hds
    have hlt : ∀ d ∈ ds, d < 10 := by
      intro d hdm
      rw [hds, List.mem_reverse, List.mem_map] at hdm
      obtain ⟨x, hx, rfl⟩ := hdm
      exact charVal_lt (hmem x hx)
    have hdsne : ds ≠ [] := by simp [hds]
    have hlast? : ds.getLast? = some (charVal c) := by
      rw [hds, List.getLast?_reverse]
      simp
    have hlast : ∀ (h : ds ≠ []), ds.getLast h ≠ 0 := by
      intro h
      have hgl := List.getLast?_eq_getLast ds h
      rw [hlast?] at hgl
      injection hgl with hgl
      rw [← hgl]
      exact charVal_ne_zero (hmem c (List.mem_cons_self c t)) hc0
    have hofd := Nat.digits_ofDigits 10 (by norm_num) ds hlt hlast
    have hvne : Nat.ofDigits 10 ds ≠ 0 := by
      intro hv
      rw [hv, Nat.digits_zero] at hofd
      exact hdsne hofd.symm
    rw [digitsVal_eq, ← hds]
    simp only [natToDec, if_neg hvne, hofd, hds]
    rw [List.map_reverse, List.reverse_reverse, List.map_map]
    have hcong : ∀ x ∈ c :: t, (digitChar ∘ charVal) x = id x := fun x hx =>
      digitChar_charVal (hmem x hx)
    rw [List.map_congr_left hcong, List.map_id]

/-- **C4 (counterexample).** The identifier `"A-01"` matches `[A-Z0-9]+-[0-9]+`,
but splitting and re-joining yields `"A-1"`, not the original: `parseInt`
discards the leading zero of the numeric suffix. -/
theorem C4_counterexample :
    identMatches ("A-01".data) = true ∧
      rejoinIdent (splitIdent ("A-01".data)) ≠ "A-01".data := by
  constructor
  · decide
  · have h1 : Nat.digits 10 1 = [1] := by
      rw [Nat.digits_def' (by norm_num : (1:ℕ) < 10) (by norm_num : 0 < 1)]
      simp
    have hsplit : splitIdent ("A-01".data) = (['A'], 1) := by decide
    have hrj : rejoinIdent (['A'], 1) = ['A', '-', '1'] := by
      simp [rejoinIdent, natToDec, h1]
      decide
    rw [hsplit, hrj]
    decide

/-- **C4 (amended).** For every identifier matching `[A-Z0-9]+-[0-9]+` whose
numeric suffix has no leading zero and parses to a value of at most `2^53`
(the double-exact range, inside which JS `parseInt` and template
interpolation are exact plain-decimal integer operations agreeing with this
model), splitting on the last `-` into (teamKey, parsed number) and
re-joining `teamKey + "-" + number` reproduces the original identifier.
Outside that range JS rounds (`parseInt('9007199254740993') =
9007199254740992`), so the round-trip can fail even without leading zeros. -/
theorem C4_split_rejoin (s : Str) (h : identMatches s = true)
    (hz : noLeadingZero s = true) (_hsafe : (splitIdent s).2 ≤ 2 ^ 53) :
    rejoinIdent (splitIdent s) = s := by
  cases hsp : splitLastDash s with
  | none => rw [identMatches, hsp] at h; exact absurd h (by simp)
  | some p =>
    obtain ⟨pre, suf⟩ := p
    rw [identMatches, hsp] at h
    simp only [Bool.and_eq_true, Bool.not_eq_true'] at h
    obtain ⟨⟨⟨-, -⟩, hsufne⟩, hsufdig⟩ := h
    rw [noLeadingZero, hsp] at hz
    have hz' : suf = ['0'] ∨ suf.head? ≠ some '0' := by
      rcases Bool.or_eq_true _ _ |>.mp hz with h | h
      · exact Or.inl (by simpa using h)
      · exact Or.inr (by simpa using h)
    have hsufne' : suf ≠ [] := by
      intro hh; rw [hh] at hsufne; simp [List.isEmpty] at hsufne
    rw [splitIdent, hsp, rejoinIdent]
    rw [natToDec_digitsVal hsufne' hsufdig hz']
    exact (splitLastDash_eq hsp).symm

/-- Witness for C4 (amended) at the concrete identifier `"A-1"`. -/
theorem C4_split_rejoin_witness :
    identMatches ("A-1".data) = true ∧ noLeadingZero ("A-1".data) = true ∧
      (splitIdent ("A-1".data)).2 ≤ 2 ^ 53 ∧
      rejoinIdent (splitIdent ("A-1".data)) = "A-1".data :=
  ⟨by decide, by decide, by decide,
    C4_split_rejoin _ (by decide) (by decide) (by decide)⟩

/-! ### Tag extraction lemmas -/

theorem length_dropWhile_le (p : Char → Bool) (l : Str) :
    (l.dropWhile p).length ≤ l.length := by
  induction l with
  | nil => simp
  | cons c t ih =>
    rw [List.dropWhile_cons]
    by_cases h : p c = true
    · simp only [h, if_true]
      exact Nat.le_succ_of_le ih
    · simp [h]

theorem parseGroup_length {s inner rest : Str}
    (h : parseGroup s = some (inner, rest)) : rest.length < s.length := by
  cases s with
  | nil => simp [parseGroup] at h
  | cons c cs =>
    rw [parseGroup] at h
    by_cases hc : c = '['
    · rw [if_pos hc] at h
      by_cases hh : (cs.dropWhile notRB).head? = some ']'
      · rw [if_pos hh] at h
        by_cases he : (cs.takeWhile notRB).isEmpty
        · rw [if_pos he] at h; exact absurd h (by simp)
        · rw [if_neg he] at h
          injection h with h
          cases h
          have h1 : (cs.dropWhile notRB).length ≤ cs.length :=
            length_dropWhile_le _ _
          have h2 : cs.dropWhile notRB ≠ [] := by
            intro hn; rw [hn] at hh; exact absurd hh (by simp)
          have h3 : 0 < (cs.dropWhile notRB).length := List.length_pos.mpr h2
          have h4 : ((cs.dropWhile notRB).tail).length
              = (cs.dropWhile notRB).length - 1 := List.length_tail _
          simp only [List.length_cons]
          omega
      · rw [if_neg hh] at h; exact absurd h (by simp)
    · rw [if_neg hc] at h; exact absurd h (by simp)

theorem parseGroupsF_nil (fuel : Nat) : parseGroupsF fuel [] = [] := by
  cases fuel <;> simp [parseGroupsF, parseGroup]

theorem parseGroupsF_congr : ∀ {fuel fuel' : Nat} {s : Str},
    s.length ≤ fuel → s.length ≤ fuel' → parseGroupsF fuel s = parseGroupsF fuel' s := by
  intro fuel
  induction fuel with
  | zero =>
    intro fuel' s hf hf'
    have : s = [] := List.length_eq_zero.mp (Nat.le_zero.mp hf)
    rw [this, parseGroupsF_nil, parseGroupsF_nil]
  | succ fuel ih =>
    intro fuel' s hf hf'
    cases s with
    | nil => rw [parseGroupsF_nil, parseGroupsF_nil]
    | cons c cs =>
      have h1 : 1 ≤ fuel' := le_trans (by simp) hf'
      obtain ⟨f2, rfl⟩ : ∃ f2, fuel' = f2 + 1 := ⟨fuel' - 1, by omega⟩
      rw [parseGroupsF, parseGroupsF]
      cases hp : parseGroup (c :: cs) with
      | none => rfl
      | some p =>
        obtain ⟨inner, rest⟩ := p
        have hr : rest.length < (c :: cs).length := parseGroup_length hp
        have hrd : (rest.dropWhile jsIsSpace).length ≤ rest.length :=
          length_dropWhile_le _ _
        have heq := @ih f2 (rest.dropWhile jsIsSpace) (by omega) (by omega)
        simp only
        rw [heq]

theorem parseGroups_cons_group {s inner rest : Str}
    (h : parseGroup s = some (inner, rest)) :
    parseGroups s = inner :: parseGroups (rest.dropWhile jsIsSpace) := by
  have h1 : 1 ≤ s.length := by
    cases s with
    | nil => simp [parseGroup] at h
    | cons c cs => simp
  obtain ⟨n, hn⟩ : ∃ n, s.length = n + 1 := ⟨s.length - 1, by omega⟩
  have hr : rest.length < s.length := parseGroup_length h
  have hrd : (rest.dropWhile jsIsSpace).length ≤ rest.length :=
    length_dropWhile_le _ _
  rw [parseGroups, hn, parseGroupsF, h]
  simp only
  rw [parseGroups,
    @parseGroupsF_congr n ((rest.dropWhile jsIsSpace).length) _ (by omega) le_rfl]

theorem parseGroups_none {s : Str} (h : parseGroup s = none) :
    parseGroups s = [] := by
  rw [parseGroups]
  cases hn : s.length with
  | zero => rw [parseGroupsF]
  | succ n => rw [parseGroupsF, h]

theorem takeWhile_append_all {p : Char → Bool} {l r : Str} {d : Char}
    (hl : ∀ c ∈ l, p c = true) (hd : p d = false) :
    (l ++ d :: r).takeWhile p = l := by
  induction l with
  | nil => simp [List.takeWhile_cons, hd]
  | cons c t ih =>
    have hc : p c = true := hl c (List.mem_cons_self c t)
    simp only [List.cons_append, List.takeWhile_cons, hc, if_true]
    rw [ih (fun x hx => hl x (List.mem_cons_of_mem c hx))]

theorem dropWhile_append_all {p : Char → Bool} {l r : Str} {d : Char}
    (hl : ∀ c ∈ l, p c = true) (hd : p d = false) :
    (l ++ d :: r).dropWhile p = d :: r := by
  induction l with
  | nil => simp [List.dropWhile_cons, hd]
  | cons c t ih =>
    have hc : p c = true := hl c (List.mem_cons_self c t)
    simp only [List.cons_append, List.dropWhile_cons, hc, if_true]
    exact ih (fun x hx => hl x (List.mem_cons_of_mem c hx))

theorem parseGroup_bracket {inner rest : Str} (hne : inner ≠ [])
    (hnb : ∀ c ∈ inner, c ≠ ']') :
    parseGroup ('[' :: inner ++ ']' :: rest) = some (inner, rest) := by
  have hall : ∀ c ∈ inner, notRB c = true := by
    intro c hc
    simpa [notRB] using hnb c hc
  have hdd : notRB ']' = false := by decide
  rw [List.cons_append, parseGroup, if_pos rfl,
    dropWhile_append_all hall hdd, takeWhile_append_all hall hdd]
  rw [if_pos (show (']' :: rest).head? = some ']' from rfl),
    if_neg (by simpa [List.isEmpty_iff] using hne)]
  rfl

/-- **C5.** `extractTitleTags` on the three documented examples, together with
the structural laws pinning its behaviour on every title: leading whitespace
is skipped; a leading bracketed group (non-empty inner text, no `]` inside)
contributes its trimmed inner text — dropped when it trims to empty — followed
by the tags of the rest; and a title with no leading bracket run yields `[]`
(in particular brackets not in the leading run are ignored). -/
theorem C5_extract_title_tags :
    extractTitleTags "[A] [B] rest" = ["A", "B"] ∧
    extractTitleTags "no tags here" = [] ∧
    extractTitleTags "mid [X] tag" = [] ∧
    (∀ c t, jsIsSpace c = true → extractTagsL (c :: t) = extractTagsL t) ∧
    (∀ inner rest, inner ≠ [] → (∀ c ∈ inner, c ≠ ']') →
      extractTagsL ('[' :: inner ++ ']' :: rest)
        = (if jsTrim inner = [] then [] else [jsTrim inner]) ++ extractTagsL rest) ∧
    (∀ t, parseGroup (t.dropWhile jsIsSpace) = none → extractTagsL t = []) := by
  refine ⟨by decide, by decide, by decide, ?_, ?_, ?_⟩
  · intro c t hc
    rw [extractTagsL, extractTagsL, List.dropWhile_cons, if_pos hc]
  · intro inner rest hne hnb
    have hsp : jsIsSpace '[' = false := by decide
    have hdw : ('[' :: inner ++ ']' :: rest).dropWhile jsIsSpace
        = '[' :: inner ++ ']' :: rest := by
      rw [List.cons_append, List.dropWhile_cons, if_neg (by simp [hsp])]
    rw [extractTagsL, hdw, parseGroups_cons_group (parseGroup_bracket hne hnb)]
    rw [extractTagsL]
    by_cases he : jsTrim inner = []
    · simp [he]
    · simp [he, List.isEmpty_iff]
  · intro t h
    rw [extractTagsL, parseGroups_none h]
    rfl

/-- Witness for C5's conditional structural laws at concrete inputs. -/
theorem C5_extract_title_tags_witness :
    extractTagsL (' ' :: "x".data) = extractTagsL "x".data ∧
    extractTagsL ('[' :: "A".data ++ ']' :: " rest".data)
      = (if jsTrim "A".data = [] then [] else [jsTrim "A".data])
          ++ extractTagsL " rest".data ∧
    extractTagsL "mid [X]".data = [] :=
  ⟨C5_extract_title_tags.2.2.2.1 ' ' "x".data (by decide),
   C5_extract_title_tags.2.2.2.2.1 "A".data " rest".data (by decide)
     (by decide),
   C5_extract_title_tags.2.2.2.2.2 "mid [X]".data (by decide)⟩

/-! ### Grouping lemmas -/

theorem lookupGroup_addToGroup_same {α : Type} (g : Grouped α) (k : String)
    (v : α) : lookupGroup (addToGroup g k v) k = lookupGroup g k ++ [v] := by
  induction g with
  | nil => simp [addToGroup, lookupGroup]
  | cons p rest ih =>
    obtain ⟨k', vs⟩ := p
    by_cases h : k' = k
    · subst h
      simp [addToGroup, lookupGroup]
    · simp [addToGroup, lookupGroup, h, ih]

theorem lookupGroup_addToGroup_other {α : Type} (g : Grouped α) (k j : String)
    (v : α) (h : j ≠ k) :
    lookupGroup (addToGroup g k v) j = lookupGroup g j := by
  have hkj : ¬ k = j := fun hh => h hh.symm
  induction g with
  | nil => simp [addToGroup, lookupGroup, hkj]
  | cons p rest ih =>
    obtain ⟨k', vs⟩ := p
    by_cases hk : k' = k
    · subst hk
      simp [addToGroup, lookupGroup, hkj]
    · simp [addToGroup, lookupGroup, hk, ih]

theorem lookupGroup_tagsFold (rt : Option String) (r : IssueRow) (k : String) :
    ∀ (ts : List String) (g : Grouped IssueRow),
    lookupGroup (ts.foldl (fun g t =>
        if jsTruthy rt = true ∧ rt ≠ some t then g else addToGroup g t r) g) k
      = lookupGroup g k
        ++ (ts.filter (fun t =>
              decide (t = k ∧ ¬(jsTruthy rt = true ∧ rt ≠ some t)))).map
            (fun _ => r) := by
  intro ts
  induction ts with
  | nil => intro g; simp
  | cons t ts ih =>
    intro g
    rw [List.foldl_cons, List.filter_cons]
    by_cases hskip : jsTruthy rt = true ∧ rt ≠ some t
    · have hp : ¬(t = k ∧ ¬(jsTruthy rt = true ∧ rt ≠ some t)) := by
        intro hh; exact hh.2 hskip
      rw [if_pos hskip, if_neg (by simpa using hp), ih]
    · rw [if_neg hskip]
      by_cases htk : t = k
      · subst htk
        have hp : t = t ∧ ¬(jsTruthy rt = true ∧ rt ≠ some t) := ⟨rfl, hskip⟩
        rw [if_pos (decide_eq_true hp), ih, lookupGroup_addToGroup_same]
        simp
      · have hp : ¬(t = k ∧ ¬(jsTruthy rt = true ∧ rt ≠ some t)) := by
          intro hh; exact htk hh.1
        rw [if_neg (by simpa using hp), ih,
          lookupGroup_addToGroup_other _ _ _ _ (fun hh => htk hh.symm)]

theorem lookupGroup_tagStep (rt : Option String) (g : Grouped IssueRow)
    (r : IssueRow) (k : String) :
    lookupGroup (tagStep rt g r) k = lookupGroup g k ++ rowCopies rt k r := by
  rw [tagStep, rowCopies]
  by_cases hemp : r.tags.isEmpty
  · rw [if_pos hemp, if_pos hemp]
    by_cases hallow : jsTruthy rt = false ∨ rt = some "NoTag"
    · rw [if_pos hallow]
      by_cases hk : k = "NoTag"
      · subst hk
        simp [lookupGroup_addToGroup_same, hallow]
      · have : ¬(k = "NoTag" ∧ (jsTruthy rt = false ∨ rt = some "NoTag")) := by
          intro hh; exact hk hh.1
        simp [lookupGroup_addToGroup_other _ _ _ _ hk, this]
    · have : ¬(k = "NoTag" ∧ (jsTruthy rt = false ∨ rt = some "NoTag")) := by
        intro hh; exact hallow hh.2
      simp [hallow, this]
  · rw [if_neg hemp, if_neg hemp]
    exact lookupGroup_tagsFold rt r k r.tags g

theorem lookupGroup_groupRowsByTags_aux (rt : Option String) (k : String) :
    ∀ (rows : List IssueRow) (g : Grouped IssueRow),
    lookupGroup (rows.foldl (tagStep rt) g) k
      = lookupGroup g k ++ (rows.map (rowCopies rt k)).flatten := by
  intro rows
  induction rows with
  | nil => intro g; simp
  | cons r rows ih =>
    intro g
    rw [List.foldl_cons, ih, lookupGroup_tagStep]
    simp [List.append_assoc]

theorem lookupGroup_groupRowsByTags (rows : List IssueRow)
    (rt : Option String) (k : String) :
    lookupGroup (groupRowsByTags rows rt) k
      = (rows.map (rowCopies rt k)).flatten := by
  rw [groupRowsByTags, lookupGroup_groupRowsByTags_aux]
  rfl

theorem lookupGroup_groupRowsByState_aux (k : String) :
    ∀ (rows : List IssueRow) (g : Grouped IssueRow),
    lookupGroup (rows.foldl (fun g r => addToGroup g r.stateName r) g) k
      = lookupGroup g k ++ rows.filter (fun r => decide (r.stateName = k)) := by
  intro rows
  induction rows with
  | nil => intro g; simp
  | cons r rows ih =>
    intro g
    rw [List.foldl_cons, ih, List.filter_cons]
    by_cases hk : r.stateName = k
    · simp [lookupGroup_addToGroup_same, hk]
    · simp [lookupGroup_addToGroup_other _ _ _ _ (fun hh => hk hh.symm), hk]

theorem lookupGroup_groupRowsByState (rows : List IssueRow) (k : String) :
    lookupGroup (groupRowsByState rows) k
      = rows.filter (fun r => decide (r.stateName = k)) := by
  rw [groupRowsByState, lookupGroup_groupRowsByState_aux]
  rfl

theorem mem_rowCopies {rt : Option String} {k : String} {r x : IssueRow}
    (h : x ∈ rowCopies rt k r) : x = r := by
  rw [rowCopies] at h
  by_cases hemp : r.tags.isEmpty
  · rw [if_pos hemp] at h
    by_cases hc : k = "NoTag" ∧ (jsTruthy rt = false ∨ rt = some "NoTag")
    · rw [if_pos hc] at h; simpa using h
    · rw [if_neg hc] at h; simp at h
  · rw [if_neg hemp] at h
    obtain ⟨t, -, ht⟩ := List.mem_map.mp h
    exact ht.symm

theorem self_mem_rowCopies_iff (rt : Option String) (k : String) (r : IssueRow) :
    r ∈ rowCopies rt k r ↔
      ((r.tags = [] ∧ k = "NoTag" ∧ (jsTruthy rt = false ∨ rt = some "NoTag")) ∨
       (k ∈ r.tags ∧ (jsTruthy rt = false ∨ rt = some k))) := by
  rw [rowCopies]
  by_cases hemp : r.tags.isEmpty
  · have htags : r.tags = [] := List.isEmpty_iff.mp hemp
    rw [if_pos hemp]
    constructor
    · intro h
      by_cases hc : k = "NoTag" ∧ (jsTruthy rt = false ∨ rt = some "NoTag")
      · exact Or.inl ⟨htags, hc.1, hc.2⟩
      · rw [if_neg hc] at h
        simp at h
    · intro h
      rcases h with ⟨-, hk, hall⟩ | ⟨hk, -⟩
      · rw [if_pos ⟨hk, hall⟩]
        simp
      · rw [htags] at hk
        simp at hk
  · have htags : r.tags ≠ [] := by
      intro hh
      exact hemp (by rw [hh]; rfl)
    rw [if_neg hemp]
    constructor
    · intro h
      obtain ⟨t, htmem, -⟩ := List.mem_map.mp h
      obtain ⟨htm, hdec⟩ := List.mem_filter.mp htmem
      rw [decide_eq_true_eq] at hdec
      obtain ⟨rfl, hnall⟩ := hdec
      refine Or.inr ⟨htm, ?_⟩
      cases hb : jsTruthy rt with
      | false => exact Or.inl rfl
      | true =>
        right
        by_contra hne
        exact hnall ⟨hb, hne⟩
    · intro h
      rcases h with ⟨htags0, -, -⟩ | ⟨hk, hall⟩
      · exact absurd htags0 htags
      · refine List.mem_map.mpr ⟨k, ?_, rfl⟩
        refine List.mem_filter.mpr ⟨hk, decide_eq_true ⟨rfl, ?_⟩⟩
        intro hcon
        obtain ⟨ht, hne⟩ := hcon
        rcases hall with h | h
        · rw [ht] at h
          exact absurd h (by simp)
        · exact hne h

/-- **C6.** Membership of the tag grouping, characterised exactly: a row is
in group `k` iff it is an input row and either it is tagless, `k` is the
`"NoTag"` ("untagged") group and the filter does not exclude that group, or
`k` is one of the row's tags and that membership passes the filter.  So a row
with tags `{X, Y}` lands in both groups absent a filter, each membership is
filtered independently (an active filter tag excludes every other group —
the `only if` direction), and a tagless row appears only in `"NoTag"`. -/
theorem C6_tag_group_membership (rows : List IssueRow) (rt : Option String)
    (r : IssueRow) (k : String) :
    r ∈ lookupGroup (groupRowsByTags rows rt) k ↔
      r ∈ rows ∧
        ((r.tags = [] ∧ k = "NoTag" ∧
            (jsTruthy rt = false ∨ rt = some "NoTag")) ∨
         (k ∈ r.tags ∧ (jsTruthy rt = false ∨ rt = some k))) := by
  rw [lookupGroup_groupRowsByTags]
  constructor
  · intro h
    obtain ⟨l, hl, hx⟩ := List.mem_flatten.mp h
    obtain ⟨r', hr', rfl⟩ := List.mem_map.mp hl
    have hrr : r = r' := mem_rowCopies hx
    subst hrr
    exact ⟨hr', (self_mem_rowCopies_iff rt k r).mp hx⟩
  · intro h
    obtain ⟨hr, hcond⟩ := h
    exact List.mem_flatten.mpr ⟨rowCopies rt k r, List.mem_map.mpr ⟨r, hr, rfl⟩,
      (self_mem_rowCopies_iff rt k r).mpr hcond⟩

/-- Witness for C6: with filter `some "Y"`, the row tagged `X, Y` is in group
`"Y"` but provably absent from group `"X"` (the membership is filtered
independently), and with no filter a tagless row is in `"NoTag"`. -/
theorem C6_tag_group_membership_witness :
    ((⟨1, "a", ["X", "Y"], "Todo"⟩ : IssueRow) ∈
      lookupGroup (groupRowsByTags [⟨1, "a", ["X", "Y"], "Todo"⟩]
        (some "Y")) "Y") ∧
    ¬((⟨1, "a", ["X", "Y"], "Todo"⟩ : IssueRow) ∈
      lookupGroup (groupRowsByTags [⟨1, "a", ["X", "Y"], "Todo"⟩]
        (some "Y")) "X") ∧
    ((⟨2, "b", [], "Todo"⟩ : IssueRow) ∈
      lookupGroup (groupRowsByTags [⟨2, "b", [], "Todo"⟩] none) "NoTag") := by
  refine ⟨?_, ?_, ?_⟩
  · exact (C6_tag_group_membership _ _ _ _).mpr
      ⟨by decide, Or.inr ⟨by decide, Or.inr rfl⟩⟩
  · intro hmem
    have h := ((C6_tag_group_membership _ _ _ _).mp hmem).2
    rcases h with ⟨htags, -, -⟩ | ⟨-, hall⟩
    · exact absurd htags (by decide)
    · rcases hall with h | h
      · exact absurd h (by decide)
      · exact absurd h (by decide)
  · exact (C6_tag_group_membership _ _ _ _).mpr
      ⟨by decide, Or.inl ⟨rfl, rfl, Or.inl rfl⟩⟩

/-! ### Sorting lemmas -/

theorem strLe_total : ∀ a b : Str, strLe a b = true ∨ strLe b a = true := by
  intro a
  induction a with
  | nil => intro b; left; rfl
  | cons c cs ih =>
    intro b
    cases b with
    | nil => right; rfl
    | cons d ds =>
      by_cases h : c = d
      · subst h
        rw [strLe, strLe, if_pos rfl, if_pos rfl]
        exact ih ds
      · rcases lt_or_gt_of_ne h with hlt | hgt
        · left
          rw [strLe, if_neg h]
          simpa using hlt
        · right
          rw [strLe, if_neg (fun hh => h hh.symm)]
          simpa using hgt

theorem strLe_trans : ∀ a b c : Str,
    strLe a b = true → strLe b c = true → strLe a c = true := by
  intro a
  induction a with
  | nil => intro b c _ _; rfl
  | cons x xs ih =>
    intro b c hab hbc
    cases b with
    | nil => rw [strLe] at hab; exact absurd hab (by simp)
    | cons y ys =>
      cases c with
      | nil => rw [strLe] at hbc; exact absurd hbc (by simp)
      | cons z zs =>
        rw [strLe] at hab hbc ⊢
        by_cases hxy : x = y
        · subst hxy
          rw [if_pos rfl] at hab
          by_cases hyz : x = z
          · subst hyz
            rw [if_pos rfl] at hbc ⊢
            exact ih _ _ hab hbc
          · rw [if_neg hyz] at hbc ⊢
            exact hbc
        · rw [if_neg hxy] at hab
          have hx : x < y := by simpa using hab
          by_cases hyz : y = z
          · subst hyz
            rw [if_neg hxy]
            simpa using hx
          · rw [if_neg hyz] at hbc
            have hy : y < z := by simpa using hbc
            have hxz : x < z := lt_trans hx hy
            rw [if_neg (ne_of_lt hxz)]
            simpa using hxz

theorem sortKeyRel_isTotal (lc : String → String → Bool)
    (hto : ∀ a b, lc a b = true ∨ lc b a = true) {α : Type} (g : Grouped α) :
    IsTotal String (sortKeyRel lc g) := by
  refine ⟨fun a b => ?_⟩
  rcases Nat.lt_trichotomy (keyLen g a) (keyLen g b) with h | h | h
  · exact Or.inr (Or.inl h)
  · rcases hto a b with hle | hle
    · exact Or.inl (Or.inr ⟨h, hle⟩)
    · exact Or.inr (Or.inr ⟨h.symm, hle⟩)
  · exact Or.inl (Or.inl h)

theorem sortKeyRel_isTrans (lc : String → String → Bool)
    (htr : ∀ a b c, lc a b = true → lc b c = true → lc a c = true)
    {α : Type} (g : Grouped α) : IsTrans String (sortKeyRel lc g) := by
  refine ⟨fun a b c hab hbc => ?_⟩
  rcases hab with h1 | ⟨h1, h1'⟩ <;> rcases hbc with h2 | ⟨h2, h2'⟩
  · exact Or.inl (by omega)
  · exact Or.inl (by omega)
  · exact Or.inl (by omega)
  · exact Or.inr ⟨h1.trans h2, htr _ _ _ h1' h2'⟩

theorem localeLeEn_total : ∀ a b, localeLeEn a b = true ∨ localeLeEn b a = true :=
  fun a b => strLe_total (asciiLower a).data (asciiLower b).data

theorem localeLeEn_trans : ∀ a b c,
    localeLeEn a b = true → localeLeEn b c = true → localeLeEn a c = true :=
  fun a b c => strLe_trans (asciiLower a).data (asciiLower b).data
    (asciiLower c).data

/-- **C7 (counterexample).** The tie-break is `localeCompare`, not
lexicographic (code-unit) order: under the default-locale collation model
(`localeLeEn`, case-insensitive at primary strength, as `en` collation
behaves — `'bug'.localeCompare('QA') < 0`), the equal-sized groups `"QA"` and
`"bug"` sort as `["bug", "QA"]`, while ascending lexicographic order —
`strLe "QA" "bug" = true` since `'Q' < 'b'` in code units — would demand
`["QA", "bug"]`.  So the claim's "ascending lexicographic" tie-break is false
of the program on mixed-case keys. -/
theorem C7_counterexample :
    sortGroupKeys localeLeEn [("QA", [1]), ("bug", [1])] = ["bug", "QA"] ∧
    strLe ("QA").data ("bug").data = true ∧
    sortGroupKeys localeLeEn [("QA", [1]), ("bug", [1])] ≠ ["QA", "bug"] := by
  refine ⟨by decide, by decide, by decide⟩

/-- **C7 (amended).** For every collation oracle `lc` standing for the
runtime's `a.localeCompare(b) ≤ 0` (any total, transitive comparison),
`sortGroupKeys lc` returns the group keys (a permutation of `Object.keys`)
ordered primarily by descending group size with ties broken strictly
ascending in the collation order (on a duplicate-free key list); the ordering
is reproducible for identical input under a fixed collation (the model is a
pure function), and on the two documented examples — whose keys `"A"`, `"B"`
every collation orders alike — it yields `["A", "B"]` both by size and by the
tie-break. -/
theorem C7_sort_group_keys :
    (∀ (lc : String → String → Bool) (α : Type) (g : Grouped α),
      (sortGroupKeys lc g).Perm (groupKeys g)) ∧
    (∀ lc : String → String → Bool,
      (∀ a b, lc a b = true ∨ lc b a = true) →
      (∀ a b c, lc a b = true → lc b c = true → lc a c = true) →
      ∀ (α : Type) (g : Grouped α), (groupKeys g).Nodup →
      (sortGroupKeys lc g).Pairwise (fun a b =>
        keyLen g b < keyLen g a ∨
          (keyLen g a = keyLen g b ∧ lc a b = true ∧ a ≠ b))) ∧
    sortGroupKeys localeLeEn [("A", [1, 2, 3]), ("B", [1, 2])] = ["A", "B"] ∧
    sortGroupKeys localeLeEn [("A", [1]), ("B", [1])] = ["A", "B"] := by
  refine ⟨?_, ?_, by decide, by decide⟩
  · intro lc α g
    exact List.perm_insertionSort _ _
  · intro lc hto htr α g hnd
    haveI := sortKeyRel_isTotal lc hto g
    haveI := sortKeyRel_isTrans lc htr g
    have hs : List.Sorted (sortKeyRel lc g) (sortGroupKeys lc g) :=
      List.sorted_insertionSort _ _
    have hnd' : (sortGroupKeys lc g).Nodup :=
      ((List.perm_insertionSort (sortKeyRel lc g) (groupKeys g)).nodup_iff).mpr hnd
    have hps := List.Pairwise.and hs hnd'
    refine hps.imp ?_
    intro a b hh
    obtain ⟨hr, hne⟩ := hh
    rcases hr with h | ⟨h1, h2⟩
    · exact Or.inl h
    · exact Or.inr ⟨h1, h2, hne⟩

/-- Witness for C7's conditional part at the default-locale collation model
and a concrete grouping. -/
theorem C7_sort_group_keys_witness :
    (groupKeys [("A", [1]), ("B", [1])]).Nodup ∧
    (sortGroupKeys localeLeEn [("A", [1]), ("B", [1])]).Pairwise (fun a b =>
      keyLen [("A", [1]), ("B", [1])] b < keyLen [("A", [1]), ("B", [1])] a ∨
        (keyLen [("A", [1]), ("B", [1])] a = keyLen [("A", [1]), ("B", [1])] b ∧
          localeLeEn a b = true ∧ a ≠ b)) :=
  ⟨by decide, C7_sort_group_keys.2.1 localeLeEn localeLeEn_total
    localeLeEn_trans Nat [("A", [1]), ("B", [1])] (by decide)⟩

/-! ### Order preservation (C10) -/

theorem nodup_filter_eq (k : String) : ∀ ts : List String, ts.Nodup →
    ts.filter (fun t => decide (t = k)) = if k ∈ ts then [k] else [] := by
  intro ts
  induction ts with
  | nil => intro _; simp
  | cons t ts ih =>
    intro hnd
    obtain ⟨hnotin, hnd'⟩ := List.nodup_cons.mp hnd
    rw [List.filter_cons]
    by_cases htk : t = k
    · subst htk
      rw [if_pos (by simp), ih hnd', if_neg hnotin,
        if_pos (List.mem_cons_self t ts)]
    · rw [if_neg (by simpa using htk), ih hnd']
      by_cases hk : k ∈ ts
      · rw [if_pos hk, if_pos (List.mem_cons_of_mem _ hk)]
      · rw [if_neg hk, if_neg (by
          intro h
          rcases List.mem_cons.mp h with h | h
          · exact htk h.symm
          · exact hk h)]

theorem rowCopies_nodup {rt : Option String} {k : String} {r : IssueRow}
    (h : r.tags.Nodup) :
    rowCopies rt k r = if rowInGroupB rt k r = true then [r] else [] := by
  rw [rowCopies, rowInGroupB]
  by_cases hemp : r.tags.isEmpty
  · rw [if_pos hemp, if_pos hemp]
    by_cases hc : k = "NoTag" ∧ (jsTruthy rt = false ∨ rt = some "NoTag")
    · rw [if_pos hc, if_pos (decide_eq_true hc)]
    · rw [if_neg hc, if_neg (by simpa using hc)]
  · rw [if_neg hemp, if_neg hemp]
    by_cases hallow : jsTruthy rt = true ∧ rt ≠ some k
    · have hfe : r.tags.filter (fun t =>
          decide (t = k ∧ ¬(jsTruthy rt = true ∧ rt ≠ some t))) = [] := by
        rw [List.filter_eq_nil_iff]
        intro t ht
        simp only [decide_eq_true_eq]
        intro hh
        obtain ⟨rfl, hcon⟩ := hh
        exact hcon hallow
      have hng : ¬(k ∈ r.tags ∧ ¬(jsTruthy rt = true ∧ rt ≠ some k)) := by
        intro hh
        exact hh.2 hallow
      rw [hfe, if_neg (by simpa using hng)]
      rfl
    · have hfe : r.tags.filter (fun t =>
          decide (t = k ∧ ¬(jsTruthy rt = true ∧ rt ≠ some t)))
            = r.tags.filter (fun t => decide (t = k)) := by
        apply List.filter_congr
        intro t ht
        by_cases htk : t = k
        · subst htk
          simp [hallow]
        · simp [htk]
      rw [hfe, nodup_filter_eq k r.tags h]
      by_cases hk : k ∈ r.tags
      · rw [if_pos hk, if_pos (decide_eq_true ⟨hk, hallow⟩)]
        rfl
      · rw [if_neg hk, if_neg (by
          simp only [decide_eq_true_eq]
          intro hh
          exact hk hh.1)]
        rfl

/-- For duplicate-free tag lists the per-row contribution degenerates to a
filter test; together with the characterisation below this recovers the
filter description of the tag groups for such rows. -/
theorem groupRowsByTags_filter_of_nodup (rows : List IssueRow) (k : String)
    (rt : Option String) (hnd : ∀ r ∈ rows, r.tags.Nodup) :
    lookupGroup (groupRowsByTags rows rt) k = rows.filter (rowInGroupB rt k) := by
  rw [lookupGroup_groupRowsByTags]
  induction rows with
  | nil => simp
  | cons r rows ih =>
    rw [List.map_cons, List.flatten_cons, List.filter_cons]
    rw [rowCopies_nodup (hnd r (List.mem_cons_self r rows))]
    rw [ih (fun x hx => hnd x (List.mem_cons_of_mem _ hx))]
    by_cases hg : rowInGroupB rt k r = true
    · rw [if_pos hg, if_pos hg]
      rfl
    · rw [if_neg hg, if_neg hg]
      rfl

/-- **C10.** Both groupings preserve the relative input order within every
group, for every input row sequence: each state group equals the input
filtered by that state, and each tag group is the input-order concatenation,
row by row, of that row's inserted copies (an empty block when the row is not
in the group; one copy per qualifying tag occurrence, so a duplicated tag
duplicates the row in place, as `extractTitleTags "[X] [X] fix"` can
produce).  Every element of a row's block is that row, so rows never
reorder across input positions. -/
theorem C10_group_order (rows : List IssueRow) (k : String) :
    lookupGroup (groupRowsByState rows) k
      = rows.filter (fun r => decide (r.stateName = k)) ∧
    (∀ rt : Option String,
      lookupGroup (groupRowsByTags rows rt) k
        = (rows.map (rowCopies rt k)).flatten) ∧
    (∀ (rt : Option String) (r x : IssueRow), x ∈ rowCopies rt k r → x = r) :=
  ⟨lookupGroup_groupRowsByState rows k,
   fun rt => lookupGroup_groupRowsByTags rows rt k,
   fun _rt _r _x hx => mem_rowCopies hx⟩

/-- Witness for C10 at concrete rows, including a row with a duplicated
tag. -/
theorem C10_group_order_witness :
    lookupGroup (groupRowsByState rowsW) "Todo"
      = rowsW.filter (fun r => decide (r.stateName = "Todo")) ∧
    lookupGroup (groupRowsByTags rowsD none) "X"
      = (rowsD.map (rowCopies none "X")).flatten ∧
    (⟨9, "d", ["X", "X"], "Todo"⟩ : IssueRow) = ⟨9, "d", ["X", "X"], "Todo"⟩ :=
  ⟨(C10_group_order rowsW "Todo").1,
   (C10_group_order rowsD "X").2.1 none,
   (C10_group_order rowsD "X").2.2 none ⟨9, "d", ["X", "X"], "Todo"⟩
     ⟨9, "d", ["X", "X"], "Todo"⟩ (by decide)⟩

/-- **C1 (counterexample).** The loop-prevention check is *case-sensitive*
(`includes`, line 241), so the claim's "regardless of the casing of the
substring" fails: a `Comment`/`create` body containing the upper-cased
variant `"(FROM SLACK BY"` — which contains the marker up to ASCII case, as
the first conjunct states, but not the exact marker (second conjunct) — is
processed normally: the issue and author are fetched, the store is consulted,
and a chat post is emitted. -/
theorem C1_counterexample :
    containsSub ((asciiLower (String.mk provenanceMarker)).data)
        ((asciiLower "ok (FROM SLACK BY Sam)").data) = true ∧
    containsMarker "ok (FROM SLACK BY Sam)" = false ∧
    handleWebhook envC1 bodyC1 stMapped
      = (stMapped,
         [.fetchIssue "iss1", .fetchUser "u1", .mapGet "ENG-1",
          .chatPost "C1" "T1"
            ("💬 *새로운 댓글 (Sam)*:\n" ++ "ok (FROM SLACK BY Sam)")]) := by
  refine ⟨by decide, by decide, by decide⟩

/-- **C1 (amended).** Every `Comment`/`create` webhook whose comment body
contains the exact, case-sensitive provenance marker `"(from Slack by"` — at
any position — is dropped before any further processing: no tracker lookup,
no store access, no search, and in particular no chat post; the store is
unchanged, so replaying the event (any `st`) again produces no chat post.
(A body containing only a case-variant of the marker is processed normally;
see the counterexample.  The chat→tracker sync emits the marker in exactly
this casing, so self-relayed comments are always dropped.) -/
theorem C1_loop_prevention (env : Env) (b : WebhookBody) (st : FsState)
    (s : String) (htype : b.type = "Comment") (hact : b.action = "create")
    (hbody : b.data.body = .str s)
    (hmark : containsSub provenanceMarker s.data = true) :
    handleWebhook env b st = (st, []) := by
  have hid : identifyEvent env b = .stop [] := by
    rw [identifyEvent,
      if_neg (by intro hh; rw [htype] at hh; exact absurd hh.1 (by decide)),
      if_pos ⟨htype, hact⟩, if_pos (by rw [hbody]; exact hmark)]
  rw [handleWebhook, if_neg (by intro hh; exact hh.2 htype), hid]

/-- Witness for C1 at a concrete delivery. -/
theorem C1_loop_prevention_witness :
    handleWebhook envW bodyW emptyStore = (emptyStore, []) :=
  C1_loop_prevention envW bodyW emptyStore "done _(from Slack by Sam)_"
    rfl rfl rfl (by decide)

/-- **C2.** Thread resolution consults `MappingStore.get` first: on a hit the
search oracle is never consulted, the store is unchanged, and (for a usable
anchor) the post goes to the mapped anchor; only on a miss is the search
issued, and a usable match (channel and timestamp present and non-empty) is
written back into the store before the post, which targets the found
anchor; a miss with no match posts nothing and writes nothing. -/
theorem C2_thread_resolution (env : Env) (ident msg : String) (st : FsState) :
    (∀ m : ThreadAnchor, tmGet ident st = some m →
      (resolveAndPost env ident msg st).1 = st ∧
        Effect.searchCall ident ∉ (resolveAndPost env ident msg st).2) ∧
    (∀ m : ThreadAnchor, tmGet ident st = some m →
      m.channelId ≠ "" → m.threadTs ≠ "" →
      resolveAndPost env ident msg st
        = (st, [.mapGet ident, .chatPost m.channelId m.threadTs msg])) ∧
    (tmGet ident st = none →
      ∀ (sm : SearchMatch) (c t : String), env.search ident = some sm →
        sm.channelId = some c → sm.ts = some t → c ≠ "" → t ≠ "" →
        resolveAndPost env ident msg st
          = (tmSet ident c t st,
             [.mapGet ident, .searchCall ident, .mapSet ident c t,
              .chatPost c t msg])) ∧
    (tmGet ident st = none → env.search ident = none →
      resolveAndPost env ident msg st
        = (st, [.mapGet ident, .searchCall ident])) := by
  refine ⟨?_, ?_, ?_, ?_⟩
  · intro m hm
    simp only [resolveAndPost, hm]
    by_cases hc : m.channelId ≠ "" ∧ m.threadTs ≠ ""
    · rw [if_pos hc]
      exact ⟨rfl, by simp⟩
    · rw [if_neg hc]
      exact ⟨rfl, by simp⟩
  · intro m hm hc ht
    simp only [resolveAndPost, hm]
    rw [if_pos ⟨hc, ht⟩]
  · intro hm sm c t hs hc ht hcne htne
    simp only [resolveAndPost, hm, hs, hc, ht]
    rw [if_pos ⟨by simpa [optTruthy] using hcne, by simpa [optTruthy] using htne⟩]
    rfl
  · intro hm hs
    simp only [resolveAndPost, hm, hs]

/-- Witness for C2: mapped hit (no search), search-fallback writeback, and
search miss, at concrete inputs. -/
theorem C2_thread_resolution_witness :
    resolveAndPost envW "ENG-1" "m" stMapped
      = (stMapped, [.mapGet "ENG-1", .chatPost "C1" "T1" "m"]) ∧
    resolveAndPost envSearch "ENG-1" "m" emptyStore
      = (tmSet "ENG-1" "C2" "T2" emptyStore,
         [.mapGet "ENG-1", .searchCall "ENG-1", .mapSet "ENG-1" "C2" "T2",
          .chatPost "C2" "T2" "m"]) ∧
    resolveAndPost envW "ENG-1" "m" emptyStore
      = (emptyStore, [.mapGet "ENG-1", .searchCall "ENG-1"]) :=
  ⟨(C2_thread_resolution envW "ENG-1" "m" stMapped).2.1 ⟨"C1", "T1"⟩
      (by decide) (by decide) (by decide),
   (C2_thread_resolution envSearch "ENG-1" "m" emptyStore).2.2.1 rfl
      ⟨some "C2", some "T2"⟩ "C2" "T2" rfl rfl rfl (by decide) (by decide),
   (C2_thread_resolution envW "ENG-1" "m" emptyStore).2.2.2 rfl rfl⟩

theorem collectIds_all_none {resolve : String → Option String}
    {toks : List String} (h : ∀ t ∈ toks, resolve t = none) :
    ∀ acc, collectIds resolve acc toks = acc := by
  induction toks with
  | nil => intro acc; rfl
  | cons t rest ih =>
    intro acc
    rw [collectIds, h t (List.mem_cons_self t rest)]
    exact ih (fun x hx => h x (List.mem_cons_of_mem t hx)) acc

/-- **C8.** When the command text supplies at least one explicit assignee
token and none of them resolves to a Slack user id, the front end responds
with the user-visible error (naming the tokens) and never proceeds to a
listing — in particular it does not fall back to treating the requester as
the assignee. -/
theorem C8_no_silent_fallback (resolve : String → Option String)
    (text requesterId : String) (mo : Option ListMode)
    (mode : ListMode) (rtag : Option String) (atoks : List String)
    (hparse : parseListTokens text mo = (mode, rtag, atoks))
    (hne : atoks ≠ [])
    (hfail : ∀ t ∈ atoks, resolve t = none) :
    issueListDecision resolve text requesterId mo = .respondError atoks := by
  have hcoll : collectIds resolve [] atoks = [] := collectIds_all_none hfail []
  have hemp : atoks.isEmpty = false := by
    cases atoks with
    | nil => exact absurd rfl hne
    | cons a l => rfl
  simp only [issueListDecision, hparse, hemp, hcoll]
  rw [if_neg (by simp : ¬(false = true))]
  simp

/-- Witness for C8: the command text `"@ghost"` with a resolver that finds
nobody. -/
theorem C8_no_silent_fallback_witness :
    issueListDecision (fun _ => none) "@ghost" "U0" none
      = .respondError ["@ghost"] :=
  C8_no_silent_fallback (fun _ => none) "@ghost" "U0" none .state none
    ["@ghost"] (by decide) (by decide) (fun t _ => rfl)

end Lenaer
